import Mathlib

/-!
# Verification of the faulty-terminal renderer and logo ticker

Shallow embedding of the numeric core of `src/app/FaultyTerminalWithLogo.tsx`:
the logo-loop ticker engine (target velocity, tile count, offset wrap,
velocity easing), the animation clock with pause/freeze, the page-load
progress ramp, the logo rasterization tick, and the pure parts of the
fragment shader (barrel distortion, glitch displacement composition,
pointer influence term).

Rational numbers stand in for JS doubles wherever the code's arithmetic is
field arithmetic; real numbers are used where the code calls `Math.exp`,
`sin` or `sqrt`.
-/

namespace FaultyTerminal

/-! ## Ticker engine: target velocity (source lines 93–98) -/

/-- Scroll direction flag of the `LogoLoop` component. -/
inductive Dir where
  | left
  | right
deriving DecidableEq

/-- Embedding of the `targetVelocity` memo:
`magnitude * directionMultiplier * speedMultiplier` where
`magnitude = Math.abs(speed)`, `directionMultiplier = direction === 'left' ? 1 : -1`,
`speedMultiplier = speed < 0 ? -1 : 1`. -/
def targetVelocity (speed : ℚ) (direction : Dir) : ℚ :=
  let magnitude := |speed|
  let directionMultiplier : ℚ := if direction = Dir.left then 1 else -1
  let speedMultiplier : ℚ := if speed < 0 then -1 else 1
  magnitude * directionMultiplier * speedMultiplier

/-! ## Ticker engine: tile copy count (source lines 100–109, `updateDimensions`) -/

/-- Animation constants from `ANIMATION_CONFIG`. -/
def MIN_COPIES : ℤ := 2

/-- Constant `COPY_HEADROOM` from `ANIMATION_CONFIG`. -/
def COPY_HEADROOM : ℤ := 2

/-- Embedding of the copy count computed in `updateDimensions` when
`sequenceWidth > 0`:
`Math.max(MIN_COPIES, Math.ceil(containerWidth / sequenceWidth) + COPY_HEADROOM)`. -/
def copyCount (containerWidth sequenceWidth : ℚ) : ℤ :=
  max MIN_COPIES (⌈containerWidth / sequenceWidth⌉ + COPY_HEADROOM)

/-! ## Ticker engine: offset wrap (source lines 120–149, `animate`) -/

/-- Truncation toward zero, the rounding used by the JS `%` operator. -/
def jsTrunc (x : ℚ) : ℤ := if 0 ≤ x then ⌊x⌋ else ⌈x⌉

/-- The JS remainder operator `a % b`: `a - b * trunc(a / b)`. -/
def jsMod (a b : ℚ) : ℚ := a - b * jsTrunc (a / b)

/-- The wrap applied to the scroll offset: `((x % S) + S) % S`
(source lines 125 and 143). -/
def wrapOffset (x S : ℚ) : ℚ := jsMod (jsMod x S + S) S

/-- One offset update of the `animate` loop once `seqWidth > 0`:
`nextOffset = offset + velocity * deltaTime` then wrapped into `[0, S)`.
The update is a pair (velocity, deltaTime). -/
def offsetStep (S o : ℚ) (upd : ℚ × ℚ) : ℚ :=
  wrapOffset (o + upd.1 * upd.2) S

/-- The list of offsets after each `animate` step, starting from offset `o`. -/
def offsetTrace (S : ℚ) (o : ℚ) : List (ℚ × ℚ) → List ℚ
  | [] => []
  | u :: us =>
      let o' := offsetStep S o u
      o' :: offsetTrace S o' us

/-! ## Shader: barrel distortion (source lines 386–399) -/

/-- Embedding of the `barrel` function of the fragment shader:
`c = uv*2-1; r2 = dot(c,c); c *= 1 + uCurvature*r2; return c*0.5+0.5`. -/
def barrel (uCurvature : ℚ) (uv : ℚ × ℚ) : ℚ × ℚ :=
  let c : ℚ × ℚ := (uv.1 * 2 - 1, uv.2 * 2 - 1)
  let r2 := c.1 * c.1 + c.2 * c.2
  let c' : ℚ × ℚ := (c.1 * (1 + uCurvature * r2), c.2 * (1 + uCurvature * r2))
  (c'.1 * (1/2) + 1/2, c'.2 * (1/2) + 1/2)

/-- The remap applied in `main` before all sampling:
`if (uCurvature != 0.0) uv = barrel(uv);`. -/
def mainRemap (uCurvature : ℚ) (uv : ℚ × ℚ) : ℚ × ℚ :=
  if uCurvature ≠ 0 then barrel uCurvature uv else uv

/-! ## Shader: glitch displacement composition (source lines 368–376, `getColor`) -/

/-- Embedding of the horizontal shift applied to `p.x` in `getColor`:
the unconditional `p.x += displacement` followed by the conditional
`if (uGlitchAmount != 1.0) p.x += displacement * (uGlitchAmount - 1.0)`. -/
def glitchShiftX (uGlitchAmount displacement x : ℚ) : ℚ :=
  let x1 := x + displacement
  if uGlitchAmount ≠ 1 then x1 + displacement * (uGlitchAmount - 1) else x1

/-! ## Animation clock (source lines 600–613, `update`) -/

/-- One frame of the clock logic in the `update` callback. The state is the
frozen-time snapshot `frozenTimeRef.current`; the input is the frame's wall
timestamp `t` (milliseconds) paired with the `pause` flag. When not paused,
`elapsed = (t * 0.001 + timeOffsetRef.current) * timeScale` is pushed to
`iTime` and stored as the new snapshot; when paused, `iTime` receives the
snapshot unchanged. Returns `(new snapshot, value pushed to iTime)`. -/
def clockStep (timeScale off frozen : ℚ) (inp : ℚ × Bool) : ℚ × ℚ :=
  if inp.2 = false then
    let elapsed := (inp.1 * (1 / 1000) + off) * timeScale
    (elapsed, elapsed)
  else
    (frozen, frozen)

/-- The elapsed-time values pushed to the `iTime` uniform over a sequence of
frames, threading the frozen snapshot through `clockStep`. -/
def clockTrace (timeScale off : ℚ) (frozen : ℚ) : List (ℚ × Bool) → List ℚ
  | [] => []
  | i :: is =>
      let r := clockStep timeScale off frozen i
      r.2 :: clockTrace timeScale off r.1 is

/-! ## Page-load progress (source lines 540–541 and 603–620) -/

/-- State of the page-load animation: the recorded start timestamp
(`loadAnimationStartRef`, `0` meaning unset) and the current value of the
`uPageLoadProgress` uniform. -/
structure PLState where
  start : ℚ
  progress : ℚ
deriving DecidableEq

/-- Initial uniform value: `pageLoadAnimation ? 0 : 1` (source line 540),
with the start timestamp unset. -/
def plInit (pageLoadAnimation : Bool) : PLState :=
  ⟨0, if pageLoadAnimation then 0 else 1⟩

/-- One frame of the page-load logic in `update`: if the feature is enabled
and the start is unset (`=== 0`), record the frame timestamp as start; then,
if the feature is enabled and the start is positive, push
`min((t - start) / 2000, 1)` to the progress uniform. -/
def plStep (pageLoadAnimation : Bool) (s : PLState) (t : ℚ) : PLState :=
  let start := if pageLoadAnimation ∧ s.start = 0 then t else s.start
  let progress :=
    if pageLoadAnimation ∧ 0 < start then min ((t - start) / 2000) 1
    else s.progress
  ⟨start, progress⟩

/-- The progress values held by the `uPageLoadProgress` uniform after each
frame of a timestamp sequence. -/
def plTrace (pageLoadAnimation : Bool) (s : PLState) : List ℚ → List ℚ
  | [] => []
  | t :: ts =>
      let s' := plStep pageLoadAnimation s t
      s'.progress :: plTrace pageLoadAnimation s' ts

/-! ## Logo rasterization tick (source lines 552–581, `updateLogoTexture`) -/

/-- Abstract model of one rasterization tick. `getContext` is the result of
`canvas.getContext('2d')`; `rasterize` stands for the serialize/decode/draw
pipeline producing the bitmap uploaded via `texImage2D`; `texture` is the
currently uploaded texture content. The `if (ctx)` guard means a `null`
context skips the tick: nothing is uploaded, no exception is thrown, and the
texture keeps its previous content. Returns the texture content after the
tick and whether an upload happened. -/
def updateLogoTexture {Ctx Bitmap : Type} (getContext : Option Ctx)
    (rasterize : Ctx → Bitmap) (texture : Option Bitmap) :
    Except String (Option Bitmap × Bool) :=
  match getContext with
  | none => Except.ok (texture, false)
  | some ctx => Except.ok (some (rasterize ctx), true)

/-! ## Ticker velocity easing (source lines 129–149, `animate`) -/

/-- Time constant `SMOOTH_TAU` (seconds) of the exponential velocity easing,
from `ANIMATION_CONFIG`. -/
noncomputable def SMOOTH_TAU : ℝ := 0.25

/-- One velocity easing step of the `animate` loop:
`easingFactor = 1 - Math.exp(-deltaTime / SMOOTH_TAU)` and
`velocity += (target - velocity) * easingFactor`. -/
noncomputable def easeVelocity (target velocity deltaTime : ℝ) : ℝ :=
  velocity + (target - velocity) * (1 - Real.exp (-deltaTime / SMOOTH_TAU))

/-- The velocity reached by easing toward a constant target across a
sequence of frame deltas. -/
noncomputable def velAfter (target v0 : ℝ) (ds : List ℝ) : ℝ :=
  ds.foldl (fun v d => easeVelocity target v d) v0

/-! ## Shader: pointer influence (source lines 326–333, `digit`) -/

/-- Distance from a digit cell to the pointer in world coordinates:
`distance(s, uMouse * uScale)`. -/
noncomputable def distToMouse (cell mouse : ℝ × ℝ) (uScale : ℝ) : ℝ :=
  Real.sqrt ((cell.1 - mouse.1 * uScale) ^ 2 + (cell.2 - mouse.2 * uScale) ^ 2)

/-- The exponential-decay pointer influence of `digit`:
`exp(-distToMouse * 8.0) * uMouseStrength * 10.0`. -/
noncomputable def mouseInfluence (uMouseStrength d : ℝ) : ℝ :=
  Real.exp (-d * 8) * uMouseStrength * 10

/-- The ripple term gated by the influence:
`sin(distToMouse * 20.0 - iTime * 5.0) * 0.1 * mouseInfluence`. -/
noncomputable def rippleTerm (uMouseStrength d iTime : ℝ) : ℝ :=
  Real.sin (d * 20 - iTime * 5) * 0.1 * mouseInfluence uMouseStrength d

/-- The digit-cell intensity after the pointer block of `digit`: when
`uUseMouse > 0.5`, the influence and the ripple are both added to the base
intensity of the cell; otherwise the intensity is unchanged. -/
noncomputable def intensityWithMouse (useMouse : Bool)
    (uMouseStrength uScale iTime : ℝ) (cell mouse : ℝ × ℝ) (base : ℝ) : ℝ :=
  if useMouse then
    let d := distToMouse cell mouse uScale
    base + mouseInfluence uMouseStrength d + rippleTerm uMouseStrength d iTime
  else base

end FaultyTerminal

namespace FaultyTerminal

/-! ## Basic lemmas about the wrap -/

theorem jsMod_nonneg_lt (a b : ℚ) (ha : 0 ≤ a) (hb : 0 < b) :
    0 ≤ jsMod a b ∧ jsMod a b < b := by
  have hdiv : 0 ≤ a / b := div_nonneg ha hb.le
  have hb' : b ≠ 0 := ne_of_gt hb
  have hba : b * (a / b) = a := by field_simp
  have hfl : (⌊a / b⌋ : ℚ) ≤ a / b := Int.floor_le _
  have hfl1 : a / b < (⌊a / b⌋ : ℚ) + 1 := Int.lt_floor_add_one _
  have hlo : b * (⌊a / b⌋ : ℚ) ≤ b * (a / b) := by
    exact mul_le_mul_of_nonneg_left hfl hb.le
  have hhi : b * (a / b) < b * ((⌊a / b⌋ : ℚ) + 1) := by
    exact mul_lt_mul_of_pos_left hfl1 hb
  unfold jsMod jsTrunc
  rw [if_pos hdiv]
  constructor
  · linarith [hba ▸ hlo]
  · nlinarith


theorem jsMod_neg_bounds (a b : ℚ) (ha : a < 0) (hb : 0 < b) :
    -b < jsMod a b ∧ jsMod a b ≤ 0 := by
  have hdiv : a / b < 0 := div_neg_of_neg_of_pos ha hb
  unfold jsMod jsTrunc
  rw [if_neg (by linarith)]
  have h1 : a - b * ⌈a / b⌉ = -(b * (↑⌈a / b⌉ - a / b)) := by
    field_simp
    ring
  rw [h1]
  have hceil0 : (0 : ℚ) ≤ ↑⌈a / b⌉ - a / b := by
    have := Int.le_ceil (a / b)
    linarith
  have hceil1 : (↑⌈a / b⌉ : ℚ) - a / b < 1 := by
    have := Int.ceil_lt_add_one (a / b)
    linarith
  constructor
  · have : b * (↑⌈a / b⌉ - a / b) < b * 1 := mul_lt_mul_of_pos_left hceil1 hb
    linarith
  · have : 0 ≤ b * (↑⌈a / b⌉ - a / b) := mul_nonneg hb.le hceil0
    linarith

theorem wrapOffset_mem (x S : ℚ) (hS : 0 < S) :
    0 ≤ wrapOffset x S ∧ wrapOffset x S < S := by
  unfold wrapOffset
  rcases le_or_lt 0 x with hx | hx
  · have h1 := jsMod_nonneg_lt x S hx hS
    have h2 : 0 ≤ jsMod x S + S := by linarith [h1.1]
    exact jsMod_nonneg_lt _ S h2 hS
  · have h1 := jsMod_neg_bounds x S hx hS
    have h2 : 0 ≤ jsMod x S + S := by linarith [h1.1]
    exact jsMod_nonneg_lt _ S h2 hS

theorem offsetTrace_mem (S o : ℚ) (hS : 0 < S) (upds : List (ℚ × ℚ)) :
    ∀ v ∈ offsetTrace S o upds, 0 ≤ v ∧ v < S := by
  induction upds generalizing o with
  | nil => intro v hv; simp [offsetTrace] at hv
  | cons u us ih =>
      intro v hv
      simp only [offsetTrace, List.mem_cons] at hv
      rcases hv with rfl | hv
      · exact wrapOffset_mem _ _ hS
      · exact ih _ v hv

end FaultyTerminal

namespace FaultyTerminal

/-- Claim C2: For every sequence width `S > 0`, any starting offset, and every
finite sequence of per-frame ticker updates with arbitrary (positive or
negative) velocities and non-negative time deltas, the scroll offset after
each update step lies in `[0, S)`; each step advances the offset by
`velocity × dt` and wraps it as `((offset % S) + S) % S`. -/
theorem offset_wrap_invariant (S o : ℚ) (upds : List (ℚ × ℚ))
    (hS : 0 < S) (_hdt : ∀ u ∈ upds, 0 ≤ u.2) :
    (∀ v ∈ offsetTrace S o upds, 0 ≤ v ∧ v < S) ∧
    (∀ o' u, offsetStep S o' u = wrapOffset (o' + u.1 * u.2) S) := by
  refine ⟨offsetTrace_mem S o hS upds, fun _ _ => rfl⟩

/-- Witness for `offset_wrap_invariant`: a concrete run with `S = 7`,
starting offset `3`, one negative-velocity step and one large
positive-velocity step. -/
theorem offset_wrap_invariant_witness :
    (∀ v ∈ offsetTrace 7 3 [(-5, 2), (100, 1/2)], 0 ≤ v ∧ v < 7) ∧
    (∀ o' u, offsetStep 7 o' u = wrapOffset (o' + u.1 * u.2) 7) :=
  offset_wrap_invariant 7 3 [(-5, 2), (100, 1/2)] (by norm_num)
    (by intro u hu; simp at hu; rcases hu with h | h <;> simp [h])

/-- Claim C3: For every sequence width `S > 0` and container width `C ≥ 0`,
the computed tile copy count `k = max(2, ⌈C / S⌉ + 2)` satisfies `k ≥ 2`
and `k × S ≥ C + S`; for `S = 200` and `C = 500` the count is `5`. -/
theorem copyCount_covers (C S : ℚ) (hS : 0 < S) (_hC : 0 ≤ C) :
    2 ≤ copyCount C S ∧ C + S ≤ (copyCount C S : ℚ) * S ∧
    copyCount 500 200 = 5 := by
  have hc3 : ⌈(500 : ℚ) / 200⌉ = 3 := by
    rw [Int.ceil_eq_iff]
    norm_num
  have h5 : copyCount 500 200 = 5 := by
    show max MIN_COPIES (⌈(500 : ℚ) / 200⌉ + COPY_HEADROOM) = 5
    rw [hc3]
    decide
  refine ⟨le_max_left _ _, ?_, h5⟩
  have hceil : C / S ≤ (⌈C / S⌉ : ℚ) := Int.le_ceil _
  have hk : (⌈C / S⌉ + COPY_HEADROOM : ℤ) ≤ copyCount C S := le_max_right _ _
  have hkQ : ((⌈C / S⌉ : ℚ) + 2) ≤ (copyCount C S : ℚ) := by
    have h2 : ((⌈C / S⌉ + COPY_HEADROOM : ℤ) : ℚ) ≤ ((copyCount C S : ℤ) : ℚ) :=
      Int.cast_le.mpr hk
    push_cast [COPY_HEADROOM] at h2
    linarith
  have hCS : C ≤ (⌈C / S⌉ : ℚ) * S := by
    have := mul_le_mul_of_nonneg_right hceil hS.le
    rwa [div_mul_cancel₀ _ hS.ne'] at this
  have h2 : ((⌈C / S⌉ : ℚ) + 2) * S ≤ (copyCount C S : ℚ) * S :=
    mul_le_mul_of_nonneg_right hkQ hS.le
  nlinarith

/-- Witness for `copyCount_covers` at `C = 500`, `S = 200`. -/
theorem copyCount_covers_witness :
    2 ≤ copyCount 500 200 ∧ (500 : ℚ) + 200 ≤ (copyCount 500 200 : ℚ) * 200 ∧
    copyCount 500 200 = 5 :=
  copyCount_covers 500 200 (by norm_num) (by norm_num)

/-- Claim C6: The ticker's target velocity is `|speed|` times `+1` for
direction `left` and `-1` for `right`, times `-1` when the configured speed
is negative; the two sign sources compose multiplicatively, so the result
equals `speed` times the direction multiplier, and a negative speed with
direction `right` yields the positive velocity `-speed`. -/
theorem targetVelocity_signs (speed : ℚ) (direction : Dir) :
    targetVelocity speed direction =
      |speed| * (if direction = Dir.left then 1 else -1) *
        (if speed < 0 then -1 else 1) ∧
    targetVelocity speed direction =
      speed * (if direction = Dir.left then 1 else -1) ∧
    targetVelocity (-50) Dir.right = 50 := by
  have hdir : (if Dir.right = Dir.left then (1 : ℚ) else -1) = -1 := rfl
  refine ⟨rfl, ?_, by norm_num [targetVelocity, hdir]⟩
  unfold targetVelocity
  rcases lt_or_le speed 0 with h | h
  · rw [abs_of_neg h, if_pos h]; ring
  · rw [abs_of_nonneg h, if_neg (not_lt.mpr h)]; ring

/-- Claim C8: When the curvature uniform is `0`, the barrel-distortion remap
performed in `main` is the identity: the coordinates used for subsequent
sampling equal the raw surface coordinates, and the `barrel` function
itself is the identity map at curvature `0`. -/
theorem barrel_identity_at_zero (uv : ℚ × ℚ) :
    mainRemap 0 uv = uv ∧ barrel 0 uv = uv := by
  constructor
  · simp [mainRemap]
  · unfold barrel
    obtain ⟨x, y⟩ := uv
    simp only [Prod.mk.injEq]
    constructor <;> ring

/-! ## Clock pause/resume -/

theorem clockTrace_paused (timeScale off f : ℚ) (pts : List ℚ)
    (tailIn : List (ℚ × Bool)) :
    clockTrace timeScale off f (pts.map (fun t => (t, true)) ++ tailIn) =
      pts.map (fun _ => f) ++ clockTrace timeScale off f tailIn := by
  induction pts with
  | nil => rfl
  | cons p ps ih => simp [clockTrace, clockStep, ih]

/-- Counterexample to claim C1: with `timeScale = 1` and phase offset `0`,
the frame sequence (0 ms, unpaused), (1000 ms, paused), (2000 ms, unpaused)
reports elapsed times `[0, 0, 2]`. The elapsed time at the moment of pause
is `0` and the only subsequent unpaused wall-clock delta is `1` second, so
the claim predicts `0 + 1 × 1 = 1` after resume — but the code reports `2`:
resuming jumps ahead by the paused duration. -/
theorem clock_resume_jump_counterexample :
    clockTrace 1 0 0 [(0, false), (1000, true), (2000, false)] = [0, 0, 2] ∧
    ¬((2 : ℚ) = 0 + (2000 - 1000) * (1 / 1000) * 1) := by
  constructor
  · norm_num [clockTrace, clockStep]
  · norm_num

/-- Claim C1 (amended): while the pause flag is set, the elapsed time
reported to the shader equals the frozen snapshot taken at the moment of
pause and does not advance; but after resuming at wall timestamp `tr`, the
reported elapsed time is recomputed from absolute wall time as
`(tr/1000 + off) × timeScale`, which equals the elapsed time at pause plus
the **entire** wall-clock interval since the last unpaused frame `tp` —
including the paused duration — times `timeScale`. Resuming therefore jumps
ahead by the paused duration times `timeScale`. -/
theorem clock_pause_freeze_resume (timeScale off f0 tp tr : ℚ)
    (pts : List ℚ) :
    clockTrace timeScale off f0
        ((tp, false) :: pts.map (fun t => (t, true)) ++ [(tr, false)]) =
      ((tp * (1 / 1000) + off) * timeScale)
        :: pts.map (fun _ => (tp * (1 / 1000) + off) * timeScale)
        ++ [(tr * (1 / 1000) + off) * timeScale] ∧
    (tr * (1 / 1000) + off) * timeScale =
      (tp * (1 / 1000) + off) * timeScale +
        (tr - tp) * (1 / 1000) * timeScale := by
  constructor
  · have h1 : clockTrace timeScale off f0
        ((tp, false) :: pts.map (fun t => (t, true)) ++ [(tr, false)]) =
        ((tp * (1 / 1000) + off) * timeScale) ::
          clockTrace timeScale off ((tp * (1 / 1000) + off) * timeScale)
            (pts.map (fun t => (t, true)) ++ [(tr, false)]) := by
      simp [clockTrace, clockStep]
    rw [h1, clockTrace_paused]
    simp [clockTrace, clockStep]
  · ring

/-! ## Page-load progress -/

theorem plTrace_disabled (s : PLState) (ts : List ℚ) :
    plTrace false s ts = ts.map (fun _ => s.progress) := by
  induction ts generalizing s with
  | nil => rfl
  | cons t ts ih => simp [plTrace, plStep, ih]

theorem plTrace_running (t0 : ℚ) (h0 : 0 < t0) (p : ℚ) (ts : List ℚ) :
    plTrace true (PLState.mk t0 p) ts =
      ts.map (fun t => min ((t - t0) / 2000) 1) := by
  induction ts generalizing p with
  | nil => rfl
  | cons t ts ih =>
      have hne : t0 ≠ 0 := ne_of_gt h0
      simp [plTrace, plStep, hne, h0, ih]

/-- Claim C5: with the page-load animation enabled and frames at positive,
non-decreasing timestamps starting at `t0`, the progress pushed to the
shader each frame equals `clamp((t − t0)/2000, 0, 1)` (here `min ((t − t0)/2000) 1`,
which is non-negative since `t ≥ t0`); the reported sequence is monotonically
non-decreasing; it equals exactly `1` for every frame at or after `t0 + 2000 ms`;
and with the feature disabled the value pushed to the shader is always `1`. -/
theorem pageLoadProgress_spec (t0 : ℚ) (rest : List ℚ) (h0 : 0 < t0)
    (hmono : List.Chain' (· ≤ ·) (t0 :: rest)) :
    plTrace true (plInit true) (t0 :: rest) =
      (t0 :: rest).map (fun t => min ((t - t0) / 2000) 1) ∧
    List.Chain' (· ≤ ·) (plTrace true (plInit true) (t0 :: rest)) ∧
    (∀ t ∈ t0 :: rest, t0 + 2000 ≤ t → min ((t - t0) / 2000) 1 = 1) ∧
    (∀ ts : List ℚ, plTrace false (plInit false) ts = ts.map (fun _ => 1)) := by
  have hne : t0 ≠ 0 := ne_of_gt h0
  have hmap : plTrace true (plInit true) (t0 :: rest) =
      (t0 :: rest).map (fun t => min ((t - t0) / 2000) 1) := by
    have h1 : plTrace true (plInit true) (t0 :: rest) =
        min ((t0 - t0) / 2000) 1 ::
          plTrace true (PLState.mk t0 (min ((t0 - t0) / 2000) 1)) rest := by
      simp [plTrace, plStep, plInit, h0]
    rw [h1, plTrace_running t0 h0]
    simp
  refine ⟨hmap, ?_, ?_, ?_⟩
  · rw [hmap, List.chain'_map]
    refine List.Chain'.imp ?_ hmono
    intro a b hab
    exact min_le_min (by linarith) le_rfl
  · intro t _ht h2000
    refine min_eq_right ?_
    rw [le_div_iff₀ (by norm_num : (0 : ℚ) < 2000)]
    linarith
  · intro ts
    rw [plTrace_disabled]
    simp [plInit]

/-- Witness for `pageLoadProgress_spec`: frames at 100, 1000, 2100 and
3000 ms; the last two frames are at least 2000 ms after the start. -/
theorem pageLoadProgress_spec_witness :
    plTrace true (plInit true) (100 :: [1000, 2100, 3000]) =
      (100 :: [1000, 2100, 3000]).map (fun t => min ((t - 100) / 2000) 1) ∧
    List.Chain' (· ≤ ·) (plTrace true (plInit true) (100 :: [1000, 2100, 3000])) ∧
    (∀ t ∈ (100 : ℚ) :: [1000, 2100, 3000], 100 + 2000 ≤ t →
      min ((t - 100) / 2000) 1 = 1) ∧
    (∀ ts : List ℚ, plTrace false (plInit false) ts = ts.map (fun _ => 1)) :=
  pageLoadProgress_spec 100 [1000, 2100, 3000] (by norm_num)
    (by norm_num [List.chain'_cons])

/-! ## Rasterizer failure handling -/

/-- Claim C7: on a rasterization tick, if the offscreen 2D context cannot be
obtained (`getContext` is `none`), the tick is skipped silently: no upload
happens, no error is raised (the result is `Except.ok`), and the previously
uploaded texture content persists unchanged; a later tick that does obtain a
context replaces the texture content. -/
theorem rasterizer_silent_skip {Ctx Bitmap : Type} (rasterize : Ctx → Bitmap)
    (texture : Option Bitmap) (ctx : Ctx) :
    updateLogoTexture none rasterize texture = Except.ok (texture, false) ∧
    updateLogoTexture (some ctx) rasterize texture =
      Except.ok (some (rasterize ctx), true) :=
  ⟨rfl, rfl⟩

/-- Claim C10: The total horizontal glitch shift in `getColor` — the
unconditional `displacement` plus the conditional
`displacement * (uGlitchAmount - 1)` applied when `uGlitchAmount ≠ 1` —
equals linear scaling `x + displacement * uGlitchAmount` for every glitch
amount; in particular `uGlitchAmount = 0` yields zero net displacement. -/
theorem glitchShiftX_linear (g d x : ℚ) :
    glitchShiftX g d x = x + d * g ∧ glitchShiftX 0 d x = x := by
  constructor
  · unfold glitchShiftX
    by_cases h : g = 1
    · subst h; simp
    · rw [if_pos h]; ring
  · unfold glitchShiftX
    norm_num

/-! ## Velocity easing convergence -/

theorem velAfter_gap (target : ℝ) (ds : List ℝ) :
    ∀ v0, target - velAfter target v0 ds =
      (target - v0) * Real.exp (-ds.sum / SMOOTH_TAU) := by
  induction ds with
  | nil =>
      intro v0
      simp [velAfter]
  | cons d ds ih =>
      intro v0
      have hstep : target - easeVelocity target v0 d =
          (target - v0) * Real.exp (-d / SMOOTH_TAU) := by
        unfold easeVelocity
        ring
      have hunfold : velAfter target v0 (d :: ds) =
          velAfter target (easeVelocity target v0 d) ds := rfl
      have hmul : Real.exp (-d / SMOOTH_TAU) * Real.exp (-ds.sum / SMOOTH_TAU) =
          Real.exp (-(d + ds.sum) / SMOOTH_TAU) := by
        rw [← Real.exp_add]
        congr 1
        ring
      rw [hunfold, ih (easeVelocity target v0 d), hstep, List.sum_cons,
        mul_assoc, hmul]

theorem exp_five_gt_hundred : (100 : ℝ) < Real.exp 5 := by
  have h1 : (2.7182818283 : ℝ) < Real.exp 1 := Real.exp_one_gt_d9
  have h5 : Real.exp 5 = Real.exp 1 ^ 5 := by
    rw [← Real.exp_nat_mul]
    norm_num
  have hpow : (2.7182818283 : ℝ) ^ 5 < Real.exp 1 ^ 5 :=
    pow_lt_pow_left₀ h1 (by norm_num) (by norm_num)
  have : (100 : ℝ) < (2.7182818283 : ℝ) ^ 5 := by norm_num
  linarith [h5 ▸ hpow]

theorem exp_five_lt_tenthousand : Real.exp 5 < 10000 := by
  have h1 : Real.exp 1 < 2.7182818286 := Real.exp_one_lt_d9
  have h5 : Real.exp 5 = Real.exp 1 ^ 5 := by
    rw [← Real.exp_nat_mul]
    norm_num
  have hpow : Real.exp 1 ^ 5 < (2.7182818286 : ℝ) ^ 5 :=
    pow_lt_pow_left₀ h1 (Real.exp_pos 1).le (by norm_num)
  have : (2.7182818286 : ℝ) ^ 5 < 10000 := by norm_num
  linarith [h5 ▸ hpow]

/-- Counterexample to claim C4: the remaining gap after `5τ` is about
`exp(−5) ≈ 0.67%` of the *initial gap*, not of the *target*, so the claim
fails for initial velocities far from the target. With target `1`, initial
velocity `101` and a single frame of `1.25 s` (deltas summing to exactly
`5τ`), the remaining gap is `100·exp(−5) ≈ 0.674`, which is not within 1%
of the target. -/
theorem velocity_convergence_counterexample :
    ¬(|velAfter 1 101 [5 / 4] - 1| ≤ 1 / 100 * |(1 : ℝ)|) := by
  have hval : velAfter 1 101 [5 / 4] = 1 + 100 * Real.exp (-5) := by
    have harg : (-(5 / 4 : ℝ)) / SMOOTH_TAU = -5 := by
      unfold SMOOTH_TAU
      norm_num
    show easeVelocity 1 101 (5 / 4) = 1 + 100 * Real.exp (-5)
    unfold easeVelocity
    rw [harg]
    ring
  have hp : (0 : ℝ) < Real.exp 5 := Real.exp_pos 5
  have hinv : 1 / 100 < 100 * Real.exp (-5) := by
    rw [Real.exp_neg, inv_eq_one_div, mul_one_div, lt_div_iff₀ hp]
    nlinarith [exp_five_lt_tenthousand]
  intro h
  rw [hval] at h
  have habs : |(1 : ℝ) + 100 * Real.exp (-5) - 1| = 100 * Real.exp (-5) := by
    have he : (1 : ℝ) + 100 * Real.exp (-5) - 1 = 100 * Real.exp (-5) := by ring
    rw [he, abs_of_pos (by positivity)]
  rw [habs, abs_one, mul_one] at h
  linarith

/-- Claim C4 (amended): the per-frame ticker velocity update is
`velocity += (target − velocity) × (1 − exp(−dt/τ))` with `τ = 0.25 s`;
consequently, for any initial velocity, holding the target constant over
frames with non-negative deltas summing to at least `5τ = 1.25 s` leaves a
remaining velocity gap of at most `exp(−5)` — less than 1% — of the
*initial* gap `|v0 − target|`. -/
theorem velocity_convergence (target v0 : ℝ) (ds : List ℝ)
    (_hpos : ∀ d ∈ ds, 0 ≤ d) (hsum : 5 * SMOOTH_TAU ≤ ds.sum) :
    (∀ v d, easeVelocity target v d =
        v + (target - v) * (1 - Real.exp (-d / SMOOTH_TAU))) ∧
    |velAfter target v0 ds - target| ≤ Real.exp (-5) * |v0 - target| ∧
    Real.exp (-5) < 1 / 100 := by
  have hτ : (0 : ℝ) < SMOOTH_TAU := by
    unfold SMOOTH_TAU
    norm_num
  refine ⟨fun v d => rfl, ?_, ?_⟩
  · have harg : -ds.sum / SMOOTH_TAU ≤ -5 := by
      rw [div_le_iff₀ hτ]
      unfold SMOOTH_TAU at hsum ⊢
      nlinarith
    have hexp_le : Real.exp (-ds.sum / SMOOTH_TAU) ≤ Real.exp (-5) :=
      Real.exp_le_exp.mpr harg
    have hgap := velAfter_gap target ds v0
    have habs : |velAfter target v0 ds - target| =
        |v0 - target| * Real.exp (-ds.sum / SMOOTH_TAU) := by
      rw [abs_sub_comm, hgap, abs_mul, Real.abs_exp, abs_sub_comm]
    rw [habs, mul_comm (Real.exp (-5)) |v0 - target|]
    exact mul_le_mul_of_nonneg_left hexp_le (abs_nonneg _)
  · rw [Real.exp_neg, inv_eq_one_div, div_lt_iff₀ (Real.exp_pos 5)]
    nlinarith [exp_five_gt_hundred]

/-- Witness for `velocity_convergence`: starting from rest, easing toward
target `80` across a single `2 s` frame. -/
theorem velocity_convergence_witness :
    (∀ v d, easeVelocity 80 v d =
        v + (80 - v) * (1 - Real.exp (-d / SMOOTH_TAU))) ∧
    |velAfter 80 0 [2] - 80| ≤ Real.exp (-5) * |(0 : ℝ) - 80| ∧
    Real.exp (-5) < 1 / 100 :=
  velocity_convergence 80 0 [2]
    (by
      intro d hd
      rw [List.mem_singleton] at hd
      rw [hd]
      norm_num)
    (by norm_num [SMOOTH_TAU])

/-! ## Pointer influence gating -/

/-- Claim C9: with pointer reactivity enabled and pointer strength `0`, the
pointer term — the exponential-decay influence together with the ripple it
gates — contributes exactly zero additional intensity to the digit-cell
computation, for every pointer position, cell, scale, time and base
intensity; moreover the strength gates the whole pointer term
multiplicatively. -/
theorem pointer_strength_zero (uScale iTime s : ℝ) (cell mouse : ℝ × ℝ)
    (base : ℝ) :
    intensityWithMouse true 0 uScale iTime cell mouse base = base ∧
    intensityWithMouse true s uScale iTime cell mouse base - base =
      s * (intensityWithMouse true 1 uScale iTime cell mouse base - base) := by
  simp only [intensityWithMouse, mouseInfluence, rippleTerm, if_true]
  constructor <;> ring

end FaultyTerminal
